import Mathlib

/-!
# Verification of the fantasy-sports trade/scoring engine

Shallow embedding of the roster-scoring engine of the fantasy-football
application:

* `backend/services/scoring.py` — scoring rules tables, player score,
  team strength, lineup validation, position breakdown, legacy wrappers;
* `backend/app.py` — the `trade_analyze` pipeline (name validation,
  post-roster construction, delta and rationale) and the trade suggestion
  generator `_generate_trade_suggestions` (per-position index, unfavorable
  trade recommendations, final summary).

Conventions of the embedding:

* Python floats are modelled as exact rationals (`ℚ`); Python `round(x, 2)`
  is modelled by `round2`, which rounds half-to-even (banker's rounding) on
  the exact value, matching Python's `round`.
* Python dicts used as player records become the structure `PlayerEntry`;
  a key that may be absent becomes an `Option` field (`none` = absent).
  `player.get("projection", 0) or 0` becomes `Option.getD _ 0`,
  `player.get("is_starter", True)` becomes `Option.getD _ true`, and
  `(player.get("position") or "UNK").upper()` becomes `posNorm`.
* Python dicts used as accumulating maps (`starter_counts`, `breakdown`,
  `pos_map`) become association lists that preserve insertion order, the
  order Python dicts iterate in.
* `list.sort` / `sorted` (stable) is modelled with `List.insertionSort`,
  which is stable for the corresponding `≤`-by-key relation.
* The fallible `trade_analyze` validation path becomes
  `Except String TradeResult`: each `flash(...); return` of an error
  message becomes `Except.error` of that message.
-/

/-- ASCII uppercase of one character (model of Python `str.upper` per
character; the names and position codes this app handles are ASCII). -/
def upperCharAscii (c : Char) : Char :=
  if 97 ≤ c.toNat ∧ c.toNat ≤ 122 then Char.ofNat (c.toNat - 32) else c

/-- ASCII model of Python `str.upper()`. -/
def upperAscii (s : String) : String :=
  ⟨s.data.map upperCharAscii⟩

/-- A player record as consumed by the engine (`dict` in the source).
`none` models an absent key. -/
structure PlayerEntry where
  name : String
  position : Option String := none
  team : Option String := none
  projection : Option ℚ := none
  is_starter : Option Bool := none
deriving DecidableEq, Repr

/-- `(player.get("position") or "UNK").upper()`: absent or empty position
defaults to `"UNK"`, then uppercased. -/
def posNorm (p : PlayerEntry) : String :=
  upperAscii (match p.position with
   | none => "UNK"
   | some s => if s = "" then "UNK" else s)

/-- `float(player.get("projection", 0) or 0)`. -/
def projectionD (p : PlayerEntry) : ℚ :=
  (p.projection).getD 0

/-- `player.get("is_starter", True)`. -/
def isStarterD (p : PlayerEntry) : Bool :=
  (p.is_starter).getD true

/-- `POSITION_WEIGHTS.get(position, 1.0)` (scoring.py lines 4-13). -/
def positionWeight (pos : String) : ℚ :=
  if pos = "QB" then 1.00
  else if pos = "RB" then 1.08
  else if pos = "WR" then 1.08
  else if pos = "TE" then 1.00
  else if pos = "FLEX" then 1.00
  else if pos = "K" then 0.45
  else if pos = "DEF" then 0.65
  else if pos = "D/ST" then 0.65
  else 1.0

/-- `POSITION_LIMITS.get(position, 1)` (scoring.py lines 16-25). -/
def positionLimit (pos : String) : Nat :=
  if pos = "QB" then 1
  else if pos = "RB" then 2
  else if pos = "WR" then 2
  else if pos = "TE" then 1
  else if pos = "FLEX" then 1
  else if pos = "K" then 1
  else if pos = "DEF" then 1
  else if pos = "D/ST" then 1
  else 1

/-- `SCORING_PRESETS.get(scoring_type, SCORING_PRESETS["PPR"])["reception_bonus"]`
(scoring.py lines 28-32 and 44-45): unknown preset keys fall back to PPR. -/
def receptionBonusOfPreset (scoring_type : String) : ℚ :=
  if scoring_type = "Standard" then 0.0
  else if scoring_type = "Half-PPR" then 0.5
  else if scoring_type = "PPR" then 1.0
  else 1.0

/-- `get_avg_receptions_by_position` (scoring.py lines 53-65):
`reception_estimates.get(position, 0)`. -/
def get_avg_receptions_by_position (position : String) : ℚ :=
  if position = "QB" then 0
  else if position = "RB" then 3.5
  else if position = "WR" then 6.0
  else if position = "TE" then 4.5
  else if position = "FLEX" then 5.0
  else if position = "K" then 0
  else if position = "DEF" then 0
  else if position = "D/ST" then 0
  else 0

/-- `calculate_player_score` (scoring.py lines 34-51). -/
def calculate_player_score (player : PlayerEntry) (scoring_type : String := "PPR") : ℚ :=
  let projection := projectionD player
  let position := posNorm player
  let weight := positionWeight position
  let base_score := projection * weight
  let reception_bonus := receptionBonusOfPreset scoring_type
  let avg_receptions := get_avg_receptions_by_position position
  let bonus_score := avg_receptions * reception_bonus
  base_score + bonus_score

/-- Loop body of `team_strength_v3` (scoring.py lines 75-82). -/
def tsStep (scoring_type : String) (acc : ℚ × ℚ) (p : PlayerEntry) : ℚ × ℚ :=
  if isStarterD p then (acc.1 + calculate_player_score p scoring_type, acc.2)
  else (acc.1, acc.2 + calculate_player_score p scoring_type)

/-- `team_strength_v3` (scoring.py lines 67-84): `(starter_total, bench_total)`. -/
def team_strength_v3 (players : List PlayerEntry) (scoring_type : String := "PPR") : ℚ × ℚ :=
  players.foldl (tsStep scoring_type) (0.0, 0.0)

/-- Python `round` to the nearest integer: round-half-to-even. -/
def pyRound (q : ℚ) : ℤ :=
  let f := ⌊q⌋
  let frac : ℚ := q - (f : ℚ)
  if frac < 1/2 then f
  else if frac = 1/2 then (if f % 2 = 0 then f else f + 1)
  else f + 1

/-- Python `round(x, 2)` on the exact value. -/
def round2 (q : ℚ) : ℚ :=
  ((pyRound (100 * q) : ℚ)) / 100

/-- `"%.2f"` formatting of a rational (as Python f-string `{x:.2f}`). -/
def pad2 (n : Nat) : String :=
  if n < 10 then "0" ++ toString n else toString n

/-- Python f-string `{x:.2f}`. -/
def fmt2 (q : ℚ) : String :=
  let n := pyRound (100 * q)
  let a := n.natAbs
  (if n < 0 then "-" else "") ++ toString (a / 100) ++ "." ++ pad2 (a % 100)

/-- Python f-string `{x:+.2f}` (explicit sign). -/
def fmt2s (q : ℚ) : String :=
  let n := pyRound (100 * q)
  let a := n.natAbs
  (if n < 0 then "-" else "+") ++ toString (a / 100) ++ "." ++ pad2 (a % 100)

/-- Insertion-order-preserving counter update: Python
`starter_counts[position] = starter_counts.get(position, 0) + 1` on a dict. -/
def bump (l : List (String × Nat)) (k : String) : List (String × Nat) :=
  match l with
  | [] => [(k, 1)]
  | (k0, c) :: rest => if k0 = k then (k0, c + 1) :: rest else (k0, c) :: bump rest k

/-- First-match lookup in an association list, defaulting (`dict.get(k, 0)`). -/
def lookupD (l : List (String × Nat)) (k : String) : Nat :=
  match l with
  | [] => 0
  | (k0, c) :: rest => if k0 = k then c else lookupD rest k

/-- One entry of `validate_lineup`'s `violations` list (scoring.py 104-109). -/
structure Violation where
  position : String
  current : Nat
  limit : Nat
  excess : Nat
deriving DecidableEq, Repr

/-- Return value of `validate_lineup` (scoring.py 111-116); the
`position_limits` entry of the returned dict is the static table
`POSITION_LIMITS` (embedded as `positionLimit`) and is omitted here. -/
structure ValidationResult where
  valid : Bool
  violations : List Violation
  starter_counts : List (String × Nat)
deriving DecidableEq, Repr

/-- Loop body of the starter count in `validate_lineup` (scoring.py 95-98). -/
def scStep (acc : List (String × Nat)) (p : PlayerEntry) : List (String × Nat) :=
  if isStarterD p then bump acc (posNorm p) else acc

/-- Loop body of the limit check in `validate_lineup` (scoring.py
100-109): a violation for an over-limit count, nothing otherwise. -/
def mkViolation (kc : String × Nat) : Option Violation :=
  let limit := positionLimit kc.1
  if kc.2 > limit then some ⟨kc.1, kc.2, limit, kc.2 - limit⟩ else none

/-- `validate_lineup` (scoring.py lines 86-116). -/
def validate_lineup (players : List PlayerEntry) : ValidationResult :=
  let starter_counts := players.foldl scStep []
  let violations := starter_counts.filterMap mkViolation
  ⟨violations.isEmpty, violations, starter_counts⟩

/-- `can_add_starter` (scoring.py lines 118-123). -/
def can_add_starter (players : List PlayerEntry) (new_position : String) : Bool :=
  let validation := validate_lineup players
  let current_count := lookupD validation.starter_counts (upperAscii new_position)
  let limit := positionLimit (upperAscii new_position)
  current_count < limit

/-- Insertion-order-preserving update of the breakdown dict
(scoring.py 137-143): create the `(0.0, 0.0)` entry if absent, then add the
score to the starter or bench component. -/
def bdAdd (l : List (String × ℚ × ℚ)) (pos : String) (isSt : Bool) (score : ℚ) :
    List (String × ℚ × ℚ) :=
  match l with
  | [] => [(pos, if isSt then (score, 0.0) else (0.0, score))]
  | (k, sb) :: rest =>
    if k = pos then (k, if isSt then (sb.1 + score, sb.2) else (sb.1, sb.2 + score)) :: rest
    else (k, sb) :: bdAdd rest pos isSt score

/-- `position_breakdown_v3` (scoring.py lines 125-145): insertion-ordered
map `position → (starter_total, bench_total)`. -/
def position_breakdown_v3 (players : List PlayerEntry) (scoring_type : String := "PPR") :
    List (String × ℚ × ℚ) :=
  players.foldl
    (fun acc p => bdAdd acc (posNorm p) (isStarterD p) (calculate_player_score p scoring_type)) []

/-- First-match lookup of a breakdown entry (`breakdown.get(pos)`). -/
def bdFind (bd : List (String × ℚ × ℚ)) (pos : String) : Option (ℚ × ℚ) :=
  match bd with
  | [] => none
  | (k, sb) :: rest => if k = pos then some sb else bdFind rest pos

/-- `bd.get(pos, {'starter': 0.0, ...})['starter']`: starter component with
default 0. -/
def bdStarterD (bd : List (String × ℚ × ℚ)) (pos : String) : ℚ :=
  ((bdFind bd pos).getD (0.0, 0.0)).1

/-- Legacy `team_strength` (scoring.py lines 148-151): starter total only. -/
def team_strength (players : List PlayerEntry) (scoring : String := "PPR") : ℚ :=
  (team_strength_v3 players scoring).1

/-- Legacy `position_breakdown` (scoring.py lines 153-159): per position,
the starter and bench components of `position_breakdown_v3` (at its default
`"PPR"` preset) combined.  The source's dict-assignment loop over the v3
items keeps each key with the combined value, i.e. a map over the entries. -/
def position_breakdown (players : List PlayerEntry) : List (String × ℚ) :=
  (position_breakdown_v3 players "PPR").map (fun ksb => (ksb.1, ksb.2.1 + ksb.2.2))

/-- First-match lookup in the legacy combined breakdown. -/
def pbFind (l : List (String × ℚ)) (pos : String) : Option ℚ :=
  match l with
  | [] => none
  | (k, v) :: rest => if k = pos then some v else pbFind rest pos

/-- The trade outcome of `trade_analyze` (app.py 1146-1181): the values
surfaced to the caller, plus the post-trade roster the delta was computed
from. -/
structure TradeResult where
  before_strength : ℚ
  after_strength : ℚ
  delta : ℚ
  rationale : String
  postRoster : List PlayerEntry
deriving DecidableEq, Repr

deriving instance DecidableEq for Except

/-- `remove_by_names` (app.py 1101-1103). -/
def remove_by_names (items : List PlayerEntry) (names : List String) : List PlayerEntry :=
  let names_upper := names.map upperAscii
  items.filter (fun i => !(names_upper.contains (upperAscii i.name)))

/-- `pick_from_pool` (app.py 1104-1110): for each requested name, the first
pool entry whose name matches case-insensitively, skipping unfound names. -/
def pick_from_pool (pool : List PlayerEntry) (names : List String) : List PlayerEntry :=
  match names with
  | [] => []
  | n :: rest =>
    match pool.find? (fun i => upperAscii i.name == upperAscii n) with
    | some found => found :: pick_from_pool pool rest
    | none => pick_from_pool pool rest

/-- `missing_give` (app.py 1133-1134): give names whose uppercase form is
not among the roster's uppercase names, in request order. -/
def missing_give (my_input : List PlayerEntry) (give_names : List String) : List String :=
  let my_names_upper := my_input.map (fun p => upperAscii p.name)
  give_names.filter (fun n => !(my_names_upper.contains (upperAscii n)))

/-- `missing_receive` (app.py 1135-1136). -/
def missing_receive (other_input : List PlayerEntry) (receive_names : List String) : List String :=
  let pool_names_upper := other_input.map (fun p => upperAscii p.name)
  receive_names.filter (fun n => !(pool_names_upper.contains (upperAscii n)))

/-- app.py 1026: empty-roster failure message. -/
def rosterEmptyMsg : String :=
  "Your roster is empty. Add players on the Dashboard before analyzing trades."

/-- app.py 1094: message when neither give nor receive names were entered. -/
def enterNamesMsg : String :=
  "Enter player names to Give or Receive (comma-separated) to simulate a trade."

/-- app.py 1138: give names not found in the caller's roster. -/
def giveNotFoundMsg (missing : List String) : String :=
  "These \x27Give\x27 players were not found in your roster: "
    ++ String.intercalate ", " missing ++ "."

/-- app.py 1140: receive names not found in the counterparty pool. -/
def receiveNotFoundMsg (missing : List String) : String :=
  "These \x27Receive\x27 players were not found in the selected roster: "
    ++ String.intercalate ", " missing ++ "."

/-- The `trade_analyze` simulation core (app.py 1011-1151), starting from
the already-built player inputs (`my_input`, `other_input`, both carrying
their effective projections — database and live-projection resolution is
the storage layer's concern and sits outside the engine).  Each validation
`flash(...); return` becomes `Except.error` of the flashed message. -/
def simulateTrade (my_input other_input : List PlayerEntry)
    (give_names receive_names : List String) (scoring_type : String) :
    Except String TradeResult :=
  if my_input = [] then .error rosterEmptyMsg
  else if give_names = [] ∧ receive_names = [] then .error enterNamesMsg
  else
    let base_total := (team_strength_v3 my_input scoring_type).1
    let mg := missing_give my_input give_names
    let mr := missing_receive other_input receive_names
    if mg ≠ [] then .error (giveNotFoundMsg mg)
    else if mr ≠ [] then .error (receiveNotFoundMsg mr)
    else
      let my_post := remove_by_names my_input give_names
        ++ pick_from_pool other_input receive_names
      let post_total := (team_strength_v3 my_post scoring_type).1
      let delta := round2 (post_total - base_total)
      let rationale := if delta > 0 then "Accept"
        else if delta = 0 then "Neutral" else "Reject"
      .ok { before_strength := base_total, after_strength := post_total,
            delta := delta, rationale := rationale, postRoster := my_post }

/-- One scored entry of `_generate_trade_suggestions`'s `by_position` index
(app.py 44-48). -/
structure PosPlayer where
  name : String
  is_starter : Bool
  score : ℚ
deriving DecidableEq, Repr

/-- `pos_map.setdefault(pos, []).append(entry)` (app.py 44-48). -/
def bpAdd (l : List (String × List PosPlayer)) (pos : String) (e : PosPlayer) :
    List (String × List PosPlayer) :=
  match l with
  | [] => [(pos, [e])]
  | (k, es) :: rest =>
    if k = pos then (k, es ++ [e]) :: rest else (k, es) :: bpAdd rest pos e

/-- Descending-by-score order used for `lst.sort(key=..., reverse=True)`. -/
def scoreGE (a b : PosPlayer) : Prop := b.score ≤ a.score

instance : DecidableRel scoreGE := fun a b => inferInstanceAs (Decidable (b.score ≤ a.score))

instance : IsTotal PosPlayer scoreGE := ⟨fun a b => (le_total b.score a.score).imp id id⟩

instance : IsTrans PosPlayer scoreGE := ⟨fun _ _ _ h1 h2 => le_trans h2 h1⟩

/-- `by_position` (app.py 41-53): index players by normalized position,
each group sorted by score descending (Python's stable `sort` with
`reverse=True`). -/
def by_position (players : List PlayerEntry) (scoring_type : String) :
    List (String × List PosPlayer) :=
  let pos_map := players.foldl
    (fun acc p => bpAdd acc (posNorm p)
      ⟨p.name, isStarterD p, calculate_player_score p scoring_type⟩) []
  pos_map.map (fun kl => (kl.1, kl.2.insertionSort scoreGE))

/-- Ascending-by-delta order used for `drops.sort(key=lambda x: x[1])`. -/
def dropLE (a b : String × ℚ) : Prop := a.2 ≤ b.2

instance : DecidableRel dropLE := fun a b => inferInstanceAs (Decidable (a.2 ≤ b.2))

instance : IsTotal (String × ℚ) dropLE := ⟨fun a b => le_total a.2 b.2⟩

instance : IsTrans (String × ℚ) dropLE := ⟨fun _ _ _ h1 h2 => le_trans h1 h2⟩

/-- app.py 128-129: one per-position recovery suggestion. -/
def recoverMsg (pos : String) (d : ℚ) : String :=
  "Recover " ++ pos ++ ": target a mid-tier upgrade (aim +" ++ fmt2 (-d) ++ ")."

/-- app.py 131-132: the generic counter-offer suggestion. -/
def counterOfferMsg : String :=
  "Consider counter-offering: swap a bench piece for a starter upgrade, or include a pick."

/-- app.py 122-127: per-position rounded starter-score drops, iterated in
the after-breakdown's key order (`for pos in after_bd.keys()`), keeping the
negative ones. -/
def trade_drops (before_bd after_bd : List (String × ℚ × ℚ)) : List (String × ℚ) :=
  (after_bd.map Prod.fst).filterMap (fun pos =>
    let d_st := round2 (bdStarterD after_bd pos - bdStarterD before_bd pos)
    if d_st < 0 then some (pos, d_st) else none)

/-- Category 5 of `_generate_trade_suggestions` (app.py 119-132):
`unfavorable_trade_recos`. -/
def unfavorable_trade_recos (before_players after_players : List PlayerEntry)
    (scoring_type : String) : List String :=
  let before_starter := (team_strength_v3 before_players scoring_type).1
  let after_starter := (team_strength_v3 after_players scoring_type).1
  let delta_total := round2 (after_starter - before_starter)
  if delta_total < 0 then
    let before_bd := position_breakdown_v3 before_players scoring_type
    let after_bd := position_breakdown_v3 after_players scoring_type
    let drops := (trade_drops before_bd after_bd).insertionSort dropLE
    (drops.take 3).map (fun pd => recoverMsg pd.1 pd.2) ++ [counterOfferMsg]
  else []

/-- app.py 150: the decision of the final summary, same sign rule as the
trade rationale. -/
def trade_decision (delta_total : ℚ) : String :=
  if delta_total > 0 then "Accept"
  else if delta_total = 0 then "Neutral" else "Reject"

/-- app.py 151-153: the one final-summary string. -/
def final_summary_line (decision : String) (delta_total before_starter after_starter : ℚ) :
    String :=
  "Decision: " ++ decision ++ " — starter Δ " ++ fmt2s delta_total
    ++ " (before " ++ fmt2 before_starter ++ " → after " ++ fmt2 after_starter ++ ")."

/-- Category 7 of `_generate_trade_suggestions` (app.py 149-153):
`final_summary`. -/
def final_summary_category (before_players after_players : List PlayerEntry)
    (scoring_type : String) : List String :=
  let before_starter := (team_strength_v3 before_players scoring_type).1
  let after_starter := (team_strength_v3 after_players scoring_type).1
  let delta_total := round2 (after_starter - before_starter)
  [final_summary_line (trade_decision delta_total) delta_total before_starter after_starter]

/-- Concrete QB starter, projection 10 (for witnesses). -/
def pQB10 : PlayerEntry :=
  { name := "Alice", position := some "QB", projection := some 10, is_starter := some true }

/-- Concrete QB starter, projection 5 (for witnesses). -/
def pQB5 : PlayerEntry :=
  { name := "Bob", position := some "QB", projection := some 5, is_starter := some true }

/-- Concrete player with an unrecognized position and an absent
`is_starter` key (for witnesses). -/
def pCB5 : PlayerEntry :=
  { name := "Cara", position := some "cb", projection := some 5 }

/-- Concrete one-player roster (for witnesses). -/
def rosterA : List PlayerEntry := [pQB10]

/-- Concrete one-player counterparty pool (for witnesses). -/
def poolB : List PlayerEntry := [pQB5]

/-- The trade result of giving `pQB10` for `pQB5` under the Standard
preset (for witnesses). -/
def tradeR1 : TradeResult :=
  { before_strength := 10, after_strength := 5, delta := -5, rationale := "Reject",
    postRoster := [pQB5] }

/-- Replace an absent `is_starter` key by its claimed default `true`
(used to state that missing `is_starter` defaults to starter). -/
def withDefaultStarter (p : PlayerEntry) : PlayerEntry :=
  { p with is_starter := some ((p.is_starter).getD true) }

theorem foldl_tsStep_eq (st : String) (players : List PlayerEntry) : ∀ acc : ℚ × ℚ,
    players.foldl (tsStep st) acc
      = (acc.1 + ((players.filter (fun p => isStarterD p)).map
            (fun p => calculate_player_score p st)).sum,
         acc.2 + ((players.filter (fun p => !isStarterD p)).map
            (fun p => calculate_player_score p st)).sum) := by
  induction players with
  | nil => intro acc; simp
  | cons p rest ih =>
    intro acc
    by_cases h : isStarterD p
    · simp [tsStep, h, ih, add_assoc]
    · simp [tsStep, h, ih, add_assoc]

theorem sum_map_filter_partition (f : PlayerEntry → ℚ) (pr : PlayerEntry → Bool)
    (l : List PlayerEntry) :
    ((l.filter pr).map f).sum + ((l.filter (fun x => !pr x)).map f).sum = (l.map f).sum := by
  induction l with
  | nil => simp
  | cons x xs ih =>
    by_cases h : pr x
    · simp only [List.filter_cons, h, Bool.not_true, List.map_cons, List.sum_cons,
        ite_true, ite_false, Bool.false_eq_true]
      rw [add_assoc, ih]
    · simp only [List.filter_cons, h, Bool.not_false, List.map_cons, List.sum_cons,
        ite_true, ite_false, Bool.false_eq_true]
      rw [add_left_comm, ih]

theorem positionWeight_nonneg (s : String) : 0 ≤ positionWeight s := by
  unfold positionWeight; split_ifs <;> norm_num

theorem get_avg_receptions_nonneg (s : String) : 0 ≤ get_avg_receptions_by_position s := by
  unfold get_avg_receptions_by_position; split_ifs <;> norm_num

theorem receptionBonus_nonneg (s : String) : 0 ≤ receptionBonusOfPreset s := by
  unfold receptionBonusOfPreset; split_ifs <;> norm_num

/-- C4: for every player list and preset, the starter total plus the bench
total of `team_strength_v3` equals the sum of the individual player scores
over the whole list, and the empty list yields `(0.0, 0.0)`. -/
theorem team_strength_partition_spec (players : List PlayerEntry) (scoring_type : String) :
    (team_strength_v3 players scoring_type).1 + (team_strength_v3 players scoring_type).2
        = (players.map (fun p => calculate_player_score p scoring_type)).sum
    ∧ team_strength_v3 ([] : List PlayerEntry) scoring_type = (0.0, 0.0) := by
  constructor
  · unfold team_strength_v3
    rw [foldl_tsStep_eq]
    have h := sum_map_filter_partition (fun p => calculate_player_score p scoring_type)
      (fun p => isStarterD p) players
    have h0 : (0.0 : ℚ) = 0 := by norm_num
    simpa [h0] using h
  · rfl

/-- C2: the player score is `projection × positionWeight(position)
+ avgReceptions(position) × presetReceptionBonus(preset)`; an unknown
preset key falls back to PPR; an unrecognized position gets weight 1.0 and
receptions 0; and the score is nonnegative whenever the projection is. -/
theorem calculate_player_score_spec (p : PlayerEntry) (st : String) :
    calculate_player_score p st
        = projectionD p * positionWeight (posNorm p)
          + get_avg_receptions_by_position (posNorm p) * receptionBonusOfPreset st
    ∧ (st ≠ "Standard" → st ≠ "Half-PPR" → st ≠ "PPR" →
        receptionBonusOfPreset st = receptionBonusOfPreset "PPR")
    ∧ (∀ s : String, s ∉ ["QB", "RB", "WR", "TE", "FLEX", "K", "DEF", "D/ST"] →
        positionWeight s = 1 ∧ get_avg_receptions_by_position s = 0)
    ∧ (0 ≤ projectionD p → 0 ≤ calculate_player_score p st) := by
  refine ⟨rfl, ?_, ?_, ?_⟩
  · intro h1 h2 h3
    simp [receptionBonusOfPreset, h1, h2, h3]
  · intro s hs
    simp only [List.mem_cons, List.not_mem_nil, or_false] at hs
    push_neg at hs
    obtain ⟨h1, h2, h3, h4, h5, h6, h7, h8⟩ := hs
    have e1 : (1.0 : ℚ) = 1 := by norm_num
    constructor
    · simp [positionWeight, h1, h2, h3, h4, h5, h6, h7, h8, e1]
    · simp [get_avg_receptions_by_position, h1, h2, h3, h4, h5, h6, h7, h8]
  · intro hp
    unfold calculate_player_score
    exact add_nonneg (mul_nonneg hp (positionWeight_nonneg _))
      (mul_nonneg (get_avg_receptions_nonneg _) (receptionBonus_nonneg _))

/-- Witness for C2 at a concrete player (unrecognized position `"cb"`,
projection 5, absent `is_starter`) and the unknown preset key `"Bogus"`. -/
theorem calculate_player_score_spec_witness :
    receptionBonusOfPreset "Bogus" = receptionBonusOfPreset "PPR"
    ∧ (positionWeight "CB" = 1 ∧ get_avg_receptions_by_position "CB" = 0)
    ∧ 0 ≤ calculate_player_score pCB5 "Bogus" := by
  have h := calculate_player_score_spec pCB5 "Bogus"
  exact ⟨h.2.1 (by decide) (by decide) (by decide),
    h.2.2.1 "CB" (by decide),
    h.2.2.2 (by norm_num [projectionD, pCB5])⟩

theorem rationale_sign (d : ℚ) :
    ((if d > 0 then "Accept" else if d = 0 then "Neutral" else "Reject") = "Accept" ↔ 0 < d)
    ∧ ((if d > 0 then "Accept" else if d = 0 then "Neutral" else "Reject") = "Neutral" ↔ d = 0)
    ∧ ((if d > 0 then "Accept" else if d = 0 then "Neutral" else "Reject") = "Reject" ↔ d < 0) := by
  rcases lt_trichotomy d 0 with hd | hd | hd
  · have h1 : ¬ d > 0 := by linarith
    have h2 : d ≠ 0 := ne_of_lt hd
    rw [if_neg h1, if_neg h2]
    exact ⟨⟨fun he => absurd he (by decide), fun hg => absurd hg h1⟩,
      ⟨fun he => absurd he (by decide), fun he => absurd he h2⟩,
      ⟨fun _ => hd, fun _ => rfl⟩⟩
  · have h1 : ¬ d > 0 := by rw [hd]; exact lt_irrefl 0
    rw [if_neg h1, if_pos hd]
    exact ⟨⟨fun he => absurd he (by decide), fun hg => absurd hg h1⟩,
      ⟨fun _ => hd, fun _ => rfl⟩,
      ⟨fun he => absurd he (by decide), fun hl => absurd hd (ne_of_lt hl)⟩⟩
  · rw [if_pos hd]
    exact ⟨⟨fun _ => hd, fun _ => rfl⟩,
      ⟨fun he => absurd he (by decide), fun he => absurd hd (by rw [he]; exact lt_irrefl 0)⟩,
      ⟨fun he => absurd he (by decide), fun hl => absurd (lt_trans hl hd) (lt_irrefl d)⟩⟩

theorem pyRound_intCast (n : ℤ) : pyRound ((n : ℚ)) = n := by
  unfold pyRound
  rw [Int.floor_intCast]
  simp only [sub_self]
  norm_num

theorem round2_intCast (n : ℤ) : round2 ((n : ℚ)) = (n : ℚ) := by
  unfold round2
  rw [show (100 : ℚ) * (n : ℚ) = ((100 * n : ℤ) : ℚ) by push_cast; ring, pyRound_intCast]
  push_cast
  rw [mul_comm, mul_div_assoc]
  norm_num

theorem rationale_sign_cases {d : ℚ} {s : String}
    (hs : s = (if d > 0 then "Accept" else if d = 0 then "Neutral" else "Reject")) :
    (s = "Accept" ↔ 0 < d) ∧ (s = "Neutral" ↔ d = 0) ∧ (s = "Reject" ↔ d < 0) := by
  subst hs; exact rationale_sign d

/-- C1: for every trade simulation that passes input validation, the
before/after strengths are the starter totals only, the delta is the
2-decimal rounding of their difference, and the rationale follows the sign
of the delta (Accept > 0, Neutral = 0, Reject < 0). -/
theorem trade_delta_sign_spec (my other : List PlayerEntry) (gives recvs : List String)
    (st : String) (r : TradeResult)
    (h : simulateTrade my other gives recvs st = Except.ok r) :
    r.before_strength = (team_strength_v3 my st).1
    ∧ r.after_strength = (team_strength_v3 r.postRoster st).1
    ∧ r.delta = round2 (r.after_strength - r.before_strength)
    ∧ (r.rationale = "Accept" ↔ 0 < r.delta)
    ∧ (r.rationale = "Neutral" ↔ r.delta = 0)
    ∧ (r.rationale = "Reject" ↔ r.delta < 0) := by
  unfold simulateTrade at h
  simp only [] at h
  split_ifs at h with h1 h2 h3 h4 h5 h6
  · rw [Except.ok.injEq] at h
    subst h
    have t := rationale_sign_cases (if_pos h5).symm
    exact ⟨rfl, rfl, rfl, t.1, t.2.1, t.2.2⟩
  · rw [Except.ok.injEq] at h
    subst h
    have t := rationale_sign_cases (Eq.symm (by rw [if_neg h5, if_pos h6]))
    exact ⟨rfl, rfl, rfl, t.1, t.2.1, t.2.2⟩
  · rw [Except.ok.injEq] at h
    subst h
    have t := rationale_sign_cases (Eq.symm (by rw [if_neg h5, if_neg h6]))
    exact ⟨rfl, rfl, rfl, t.1, t.2.1, t.2.2⟩

theorem score_pQB10_standard : calculate_player_score pQB10 "Standard" = 10 := by
  have hposA : posNorm pQB10 = "QB" := by decide
  simp only [calculate_player_score, hposA]
  norm_num [projectionD, pQB10, positionWeight, get_avg_receptions_by_position,
    receptionBonusOfPreset]

theorem score_pQB5_standard : calculate_player_score pQB5 "Standard" = 5 := by
  have hposB : posNorm pQB5 = "QB" := by decide
  simp only [calculate_player_score, hposB]
  norm_num [projectionD, pQB5, positionWeight, get_avg_receptions_by_position,
    receptionBonusOfPreset]

theorem ts_rosterA_standard : (team_strength_v3 rosterA "Standard").1 = 10 := by
  have hstA : isStarterD pQB10 = true := by decide
  simp [team_strength_v3, rosterA, tsStep, hstA, score_pQB10_standard]
  norm_num

theorem ts_pQB5_standard : (team_strength_v3 [pQB5] "Standard").1 = 5 := by
  have hstB : isStarterD pQB5 = true := by decide
  simp [team_strength_v3, tsStep, hstB, score_pQB5_standard]
  norm_num

theorem round2_5_sub_10 : round2 ((5 : ℚ) - 10) = (-5 : ℚ) := by
  rw [show ((5 : ℚ) - 10) = ((-5 : ℤ) : ℚ) by norm_num, round2_intCast]
  norm_num

theorem simulateTrade_concrete :
    simulateTrade rosterA poolB ["Alice"] ["Bob"] "Standard" = Except.ok tradeR1 := by
  have hpost : remove_by_names rosterA ["Alice"] ++ pick_from_pool poolB ["Bob"] = [pQB5] := by
    decide
  have hbefore := ts_rosterA_standard
  have hafter := ts_pQB5_standard
  have hdelta := round2_5_sub_10
  unfold simulateTrade
  rw [if_neg (by decide : ¬ (rosterA = [])),
    if_neg (by decide : ¬ (["Alice"] = ([] : List String) ∧ ["Bob"] = ([] : List String)))]
  simp only []
  rw [if_neg (by decide : ¬ (missing_give rosterA ["Alice"] ≠ [])),
    if_neg (by decide : ¬ (missing_receive poolB ["Bob"] ≠ []))]
  rw [hpost, hbefore, hafter, hdelta]
  rw [if_neg (by norm_num : ¬ ((-5 : ℚ) > 0)), if_neg (by norm_num : ¬ ((-5 : ℚ) = 0))]
  rfl

/-- Witness for C1: a concrete validated trade (give `Alice`, receive
`Bob` against `poolB` under the Standard preset) evaluating to
`tradeR1`. -/
theorem trade_delta_sign_witness :
    tradeR1.delta = round2 (tradeR1.after_strength - tradeR1.before_strength)
    ∧ (tradeR1.rationale = "Reject" ↔ tradeR1.delta < 0) := by
  have hs := trade_delta_sign_spec rosterA poolB ["Alice"] ["Bob"] "Standard" tradeR1
    simulateTrade_concrete
  exact ⟨hs.2.2.1, hs.2.2.2.2.2⟩

theorem missing_give_nil (my : List PlayerEntry) : missing_give my [] = [] := rfl

theorem missing_receive_nil (other : List PlayerEntry) : missing_receive other [] = [] := rfl

/-- C3: a trade request with an unknown give name, an unknown receive
name, or no names at all fails with the user-facing message naming exactly
the missing names (or asking for names), and no `TradeResult` is
produced. -/
theorem trade_validation_spec (my other : List PlayerEntry) (gives recvs : List String)
    (st : String) (hmy : my ≠ []) :
    (gives = [] → recvs = [] →
      simulateTrade my other gives recvs st = Except.error enterNamesMsg)
    ∧ (missing_give my gives ≠ [] →
      simulateTrade my other gives recvs st
        = Except.error (giveNotFoundMsg (missing_give my gives)))
    ∧ (missing_give my gives = [] → missing_receive other recvs ≠ [] →
      simulateTrade my other gives recvs st
        = Except.error (receiveNotFoundMsg (missing_receive other recvs)))
    ∧ (∀ r : TradeResult, simulateTrade my other gives recvs st = Except.ok r →
        missing_give my gives = [] ∧ missing_receive other recvs = []
        ∧ ¬(gives = [] ∧ recvs = [])) := by
  refine ⟨?_, ?_, ?_, ?_⟩
  · intro hg hr
    unfold simulateTrade
    rw [if_neg hmy, if_pos ⟨hg, hr⟩]
  · intro hmg
    have hg : gives ≠ [] := fun he => hmg (by rw [he]; exact missing_give_nil my)
    unfold simulateTrade
    rw [if_neg hmy, if_neg (fun hc => hg hc.1)]
    simp only []
    rw [if_pos hmg]
  · intro hmg hmr
    have hr : recvs ≠ [] := fun he => hmr (by rw [he]; exact missing_receive_nil other)
    unfold simulateTrade
    rw [if_neg hmy, if_neg (fun hc => hr hc.2)]
    simp only []
    rw [if_neg (not_not_intro hmg), if_pos hmr]
  · intro r hok
    unfold simulateTrade at hok
    simp only [] at hok
    split_ifs at hok with h1 h2 h3 h4 h5 h6
    all_goals exact ⟨not_not.mp h3, not_not.mp h4, h2⟩

/-- Witness for C3: giving the unknown name `Zed` from a nonempty roster
fails with the give-not-found message naming `Zed`. -/
theorem trade_validation_witness :
    simulateTrade rosterA ([] : List PlayerEntry) ["Zed"] [] "PPR"
      = Except.error (giveNotFoundMsg (missing_give rosterA ["Zed"])) :=
  (trade_validation_spec rosterA [] ["Zed"] [] "PPR" (by decide)).2.1 (by decide)

/-- C6: for every validated trade, the post roster is the caller's roster
minus the give names plus the receive names picked from the counterparty
pool; removal and selection match names case-insensitively and a name
matching several pool entries picks the first encountered one. -/
theorem trade_post_roster_spec (my other : List PlayerEntry) (gives recvs : List String)
    (st : String) (r : TradeResult)
    (h : simulateTrade my other gives recvs st = Except.ok r) :
    r.postRoster = remove_by_names my gives ++ pick_from_pool other recvs
    ∧ (∀ i : PlayerEntry, i ∈ remove_by_names my gives ↔
        i ∈ my ∧ ∀ n ∈ gives, upperAscii i.name ≠ upperAscii n)
    ∧ pick_from_pool other recvs
        = recvs.filterMap (fun n => other.find? (fun i => upperAscii i.name == upperAscii n))
    ∧ (∀ (n : String) (p : PlayerEntry) (l1 l2 : List PlayerEntry),
        other = l1 ++ p :: l2 → upperAscii p.name = upperAscii n →
        (∀ q ∈ l1, upperAscii q.name ≠ upperAscii n) →
        other.find? (fun i => upperAscii i.name == upperAscii n) = some p) := by
  refine ⟨?_, ?_, ?_, ?_⟩
  · unfold simulateTrade at h
    simp only [] at h
    split_ifs at h with h1 h2 h3 h4 h5 h6
    all_goals (rw [Except.ok.injEq] at h; subst h; rfl)
  · intro i
    simp only [remove_by_names, List.mem_filter, Bool.not_eq_true', and_congr_right_iff]
    intro _
    constructor
    · intro hc n hn he
      rw [List.contains_eq_any_beq] at hc
      have : (gives.map upperAscii).any (upperAscii i.name == ·) = true := by
        refine List.any_eq_true.mpr ⟨upperAscii n, List.mem_map_of_mem upperAscii hn, ?_⟩
        simp [he]
      rw [this] at hc
      exact Bool.false_ne_true hc.symm
    · intro hall
      rw [List.contains_eq_any_beq]
      refine List.any_eq_false.mpr ?_
      intro u hu
      obtain ⟨n, hn, rfl⟩ := List.mem_map.mp hu
      simp [hall n hn]
  · have key : ∀ names : List String, pick_from_pool other names
        = names.filterMap (fun n => other.find? (fun i => upperAscii i.name == upperAscii n)) := by
      intro names
      induction names with
      | nil => rfl
      | cons n rest ih =>
        unfold pick_from_pool
        cases hf : other.find? (fun i => upperAscii i.name == upperAscii n) with
        | none => simp [List.filterMap_cons, hf, ih]
        | some found => simp [List.filterMap_cons, hf, ih]
    exact key recvs
  · intro n p l1 l2 hother hp hl1
    subst hother
    have key : ∀ (l : List PlayerEntry), (∀ q ∈ l, upperAscii q.name ≠ upperAscii n) →
        (l ++ p :: l2).find? (fun i => upperAscii i.name == upperAscii n) = some p := by
      intro l
      induction l with
      | nil =>
        intro _
        exact List.find?_cons_of_pos _ (by simp [hp])
      | cons q rest ih2 =>
        intro hall
        rw [List.cons_append, List.find?_cons_of_neg]
        · exact ih2 (fun x hx => hall x (List.mem_cons_of_mem q hx))
        · simp [hall q (List.mem_cons_self q rest)]
    exact key l1 hl1

/-- Witness for C6: the concrete validated trade of `tradeR1` has the
predicted post roster. -/
theorem trade_post_roster_witness :
    tradeR1.postRoster = remove_by_names rosterA ["Alice"] ++ pick_from_pool poolB ["Bob"] :=
  (trade_post_roster_spec rosterA poolB ["Alice"] ["Bob"] "Standard" tradeR1
    simulateTrade_concrete).1

theorem isStarterD_withDefault (p : PlayerEntry) :
    isStarterD (withDefaultStarter p) = isStarterD p := by
  simp [isStarterD, withDefaultStarter]

theorem posNorm_withDefault (p : PlayerEntry) :
    posNorm (withDefaultStarter p) = posNorm p := rfl

theorem name_withDefault (p : PlayerEntry) :
    (withDefaultStarter p).name = p.name := rfl

theorem score_withDefault (p : PlayerEntry) (st : String) :
    calculate_player_score (withDefaultStarter p) st = calculate_player_score p st := rfl

theorem foldl_map_withDefault {β : Type} (g : β → PlayerEntry → β)
    (hg : ∀ acc p, g acc (withDefaultStarter p) = g acc p) (players : List PlayerEntry) :
    ∀ init : β, (players.map withDefaultStarter).foldl g init = players.foldl g init := by
  induction players with
  | nil => intro _; rfl
  | cons p rest ih => intro init; simp only [List.map_cons, List.foldl_cons, hg, ih]

/-- C9: a player record whose `is_starter` key is absent is treated as a
starter by every engine function: replacing the absent key by `true`
changes nothing in team strength, lineup validation, position breakdown,
or the suggestion generator's per-position index, and the effective
starter flag of such a record is `true`. -/
theorem missing_is_starter_defaults_spec (name : String) (pos team : Option String)
    (proj : Option ℚ) (players : List PlayerEntry) (st : String) :
    isStarterD
      { name := name, position := pos, team := team, projection := proj,
        is_starter := none } = true
    ∧ team_strength_v3 (players.map withDefaultStarter) st = team_strength_v3 players st
    ∧ validate_lineup (players.map withDefaultStarter) = validate_lineup players
    ∧ position_breakdown_v3 (players.map withDefaultStarter) st
        = position_breakdown_v3 players st
    ∧ by_position (players.map withDefaultStarter) st = by_position players st := by
  refine ⟨rfl, ?_, ?_, ?_, ?_⟩
  · exact foldl_map_withDefault _
      (fun acc p => by simp [tsStep, isStarterD_withDefault, score_withDefault]) players _
  · have hfold := foldl_map_withDefault scStep
      (fun acc p => by simp [scStep, isStarterD_withDefault, posNorm_withDefault]) players
        ([] : List (String × Nat))
    simp [validate_lineup, hfold]
  · exact foldl_map_withDefault _
      (fun acc p => by
        simp [isStarterD_withDefault, posNorm_withDefault, score_withDefault]) players _
  · have hfold := foldl_map_withDefault
      (fun acc p => bpAdd acc (posNorm p)
        ⟨p.name, isStarterD p, calculate_player_score p st⟩)
      (fun acc p => by
        simp only [isStarterD_withDefault, posNorm_withDefault, score_withDefault,
          name_withDefault]) players []
    simp [by_position, hfold]

theorem bdFind_map_combine (bd : List (String × ℚ × ℚ)) (pos : String) :
    pbFind (bd.map (fun ksb => (ksb.1, ksb.2.1 + ksb.2.2))) pos
      = (bdFind bd pos).map (fun sb => sb.1 + sb.2) := by
  induction bd with
  | nil => rfl
  | cons e rest ih =>
    obtain ⟨k, sb⟩ := e
    by_cases h : k = pos <;> simp [pbFind, bdFind, h, ih]

theorem mem_keys_bdAdd (l : List (String × ℚ × ℚ)) (pos q : String) (b : Bool) (sc : ℚ) :
    q ∈ (bdAdd l pos b sc).map Prod.fst ↔ (q ∈ l.map Prod.fst ∨ q = pos) := by
  induction l with
  | nil =>
    simp [bdAdd]
  | cons e rest ih =>
    obtain ⟨k, sb⟩ := e
    simp only [bdAdd]
    by_cases h : k = pos
    · rw [if_pos h]
      subst h
      simp only [List.map_cons, List.mem_cons]
      tauto
    · rw [if_neg h]
      simp only [List.map_cons, List.mem_cons, ih]
      tauto

theorem mem_keys_bd_foldl (st : String) (players : List PlayerEntry) (q : String) :
    ∀ acc : List (String × ℚ × ℚ),
      (q ∈ (players.foldl (fun acc p =>
          bdAdd acc (posNorm p) (isStarterD p) (calculate_player_score p st)) acc).map Prod.fst
        ↔ (q ∈ acc.map Prod.fst ∨ ∃ p ∈ players, posNorm p = q)) := by
  induction players with
  | nil => simp
  | cons p rest ih =>
    intro acc
    rw [List.foldl_cons, ih, mem_keys_bdAdd]
    constructor
    · rintro (⟨h | h⟩ | h)
      · exact Or.inl h
      · exact Or.inr ⟨p, List.mem_cons_self p rest, h.symm⟩
      · obtain ⟨x, hx, hq⟩ := h
        exact Or.inr ⟨x, List.mem_cons_of_mem p hx, hq⟩
    · rintro (h | ⟨x, hx, hq⟩)
      · exact Or.inl (Or.inl h)
      · rcases List.mem_cons.mp hx with rfl | hx
        · exact Or.inl (Or.inr hq.symm)
        · exact Or.inr ⟨x, hx, hq⟩

/-- C10: the legacy `team_strength` is exactly the starter component of
`team_strength_v3`, and the legacy `position_breakdown` maps each position
present in the input (the keys of the v3 breakdown) to the sum of the
starter and bench components of `position_breakdown_v3` under the PPR
preset. -/
theorem legacy_functions_spec (players : List PlayerEntry) (scoring : String) :
    team_strength players scoring = (team_strength_v3 players scoring).1
    ∧ (∀ pos : String, pbFind (position_breakdown players) pos
        = (bdFind (position_breakdown_v3 players "PPR") pos).map (fun sb => sb.1 + sb.2))
    ∧ (∀ pos : String, pos ∈ (position_breakdown players).map Prod.fst
        ↔ ∃ p ∈ players, posNorm p = pos) := by
  refine ⟨rfl, ?_, ?_⟩
  · intro pos
    exact bdFind_map_combine _ pos
  · intro pos
    have hkeys : (position_breakdown players).map Prod.fst
        = (position_breakdown_v3 players "PPR").map Prod.fst := by
      unfold position_breakdown
      rw [List.map_map]
      rfl
    rw [hkeys]
    unfold position_breakdown_v3
    simpa using mem_keys_bd_foldl "PPR" players pos []

theorem lookupD_bump (l : List (String × Nat)) (k q : String) :
    lookupD (bump l k) q = lookupD l q + (if q = k then 1 else 0) := by
  induction l with
  | nil =>
    simp only [bump, lookupD]
    by_cases h : k = q
    · rw [if_pos h, if_pos h.symm]
    · rw [if_neg h, if_neg (fun e => h e.symm)]
  | cons e rest ih =>
    obtain ⟨k0, c⟩ := e
    simp only [bump]
    by_cases h : k0 = k
    · rw [if_pos h]
      subst h
      simp only [lookupD]
      by_cases hq : k0 = q
      · rw [if_pos hq, if_pos hq, if_pos hq.symm]
      · rw [if_neg hq, if_neg hq, if_neg (fun e => hq e.symm), Nat.add_zero]
    · rw [if_neg h]
      simp only [lookupD]
      by_cases hq : k0 = q
      · rw [if_pos hq, if_pos hq, if_neg (fun e => h (hq.trans e)), Nat.add_zero]
      · rw [if_neg hq, if_neg hq, ih]

theorem mem_keys_bump (l : List (String × Nat)) (k q : String) :
    q ∈ (bump l k).map Prod.fst ↔ (q ∈ l.map Prod.fst ∨ q = k) := by
  induction l with
  | nil => simp [bump]
  | cons e rest ih =>
    obtain ⟨k0, c⟩ := e
    simp only [bump]
    by_cases h : k0 = k
    · rw [if_pos h]
      subst h
      simp only [List.map_cons, List.mem_cons]
      tauto
    · rw [if_neg h]
      simp only [List.map_cons, List.mem_cons, ih]
      tauto

theorem nodup_keys_bump (l : List (String × Nat)) (k : String)
    (h : (l.map Prod.fst).Nodup) : ((bump l k).map Prod.fst).Nodup := by
  induction l with
  | nil => simp [bump]
  | cons e rest ih =>
    obtain ⟨k0, c⟩ := e
    simp only [List.map_cons, List.nodup_cons] at h
    simp only [bump]
    by_cases hk : k0 = k
    · rw [if_pos hk]
      simp only [List.map_cons, List.nodup_cons]
      exact h
    · rw [if_neg hk]
      simp only [List.map_cons, List.nodup_cons, mem_keys_bump]
      exact ⟨fun hc => hc.elim h.1 hk, ih h.2⟩

theorem lookupD_scStep_foldl (players : List PlayerEntry) (q : String) :
    ∀ acc : List (String × Nat),
      lookupD (players.foldl scStep acc) q
        = lookupD acc q + players.countP (fun p => isStarterD p && (posNorm p == q)) := by
  induction players with
  | nil => simp
  | cons p rest ih =>
    intro acc
    rw [List.foldl_cons, ih, List.countP_cons]
    simp only [scStep]
    by_cases hst : isStarterD p
    · rw [if_pos hst, lookupD_bump]
      by_cases hpq : posNorm p = q
      · have hb : (isStarterD p && (posNorm p == q)) = true := by simp [hst, hpq]
        rw [hb, if_pos hpq.symm, if_pos rfl]
        omega
      · have hb : (isStarterD p && (posNorm p == q)) = false := by simp [hst, hpq]
        rw [hb, if_neg (fun e => hpq e.symm), if_neg Bool.false_ne_true]
        omega
    · rw [if_neg hst]
      have hb : (isStarterD p && (posNorm p == q)) = false := by
        simp [Bool.eq_false_iff.mpr hst]
      rw [hb, if_neg Bool.false_ne_true]
      omega

theorem nodup_keys_scStep_foldl (players : List PlayerEntry) :
    ∀ acc : List (String × Nat), (acc.map Prod.fst).Nodup →
      ((players.foldl scStep acc).map Prod.fst).Nodup := by
  induction players with
  | nil => exact fun _ h => h
  | cons p rest ih =>
    intro acc hacc
    rw [List.foldl_cons]
    refine ih _ ?_
    simp only [scStep]
    by_cases hst : isStarterD p
    · rw [if_pos hst]
      exact nodup_keys_bump acc (posNorm p) hacc
    · rw [if_neg hst]
      exact hacc

theorem lookupD_eq_of_mem {l : List (String × Nat)} {k : String} {c : Nat}
    (hmem : (k, c) ∈ l) (hnd : (l.map Prod.fst).Nodup) : lookupD l k = c := by
  induction l with
  | nil => cases hmem
  | cons e rest ih =>
    obtain ⟨k0, c0⟩ := e
    simp only [List.map_cons, List.nodup_cons] at hnd
    rcases List.mem_cons.mp hmem with he | hmem2
    · rw [Prod.mk.injEq] at he
      obtain ⟨rfl, rfl⟩ := he
      simp [lookupD]
    · have hne : k0 ≠ k := by
        intro he
        subst he
        exact hnd.1 (List.mem_map_of_mem Prod.fst hmem2)
      simp only [lookupD, if_neg hne]
      exact ih hmem2 hnd.2

theorem mem_of_lookupD_pos {l : List (String × Nat)} {k : String}
    (h : lookupD l k ≠ 0) : (k, lookupD l k) ∈ l := by
  induction l with
  | nil => exact absurd rfl h
  | cons e rest ih =>
    obtain ⟨k0, c0⟩ := e
    by_cases hk : k0 = k
    · subst hk
      simp [lookupD]
    · simp only [lookupD, if_neg hk] at h ⊢
      exact List.mem_cons_of_mem _ (ih h)

theorem violations_keys_sublist (counts : List (String × Nat)) :
    ((counts.filterMap mkViolation).map (fun v => v.position)).Sublist
      (counts.map Prod.fst) := by
  induction counts with
  | nil => exact List.Sublist.refl _
  | cons kc rest ih =>
    obtain ⟨k, c⟩ := kc
    rw [List.filterMap_cons]
    cases hmk : mkViolation (k, c) with
    | none =>
      exact ih.trans (List.sublist_cons_self _ _)
    | some v =>
      have hv : v.position = k := by
        unfold mkViolation at hmk
        simp only [] at hmk
        split_ifs at hmk with hgt
        rw [Option.some.injEq] at hmk
        rw [← hmk]
      simp only [List.map_cons, hv]
      exact ih.cons₂ k

/-- C5: lineup validation counts starters per uppercase-normalized
position, emits exactly one violation `{position, current, limit, excess}`
with `excess = current - limit` for exactly the positions whose starter
count exceeds the limit, and `valid` holds iff the violation list is
empty. -/
theorem validate_lineup_spec (players : List PlayerEntry) :
    (∀ q : String, lookupD (validate_lineup players).starter_counts q
        = players.countP (fun p => isStarterD p && (posNorm p == q)))
    ∧ (∀ v : Violation, v ∈ (validate_lineup players).violations ↔
        (positionLimit v.position < lookupD (validate_lineup players).starter_counts v.position
         ∧ v.current = lookupD (validate_lineup players).starter_counts v.position
         ∧ v.limit = positionLimit v.position
         ∧ v.excess = v.current - v.limit))
    ∧ ((validate_lineup players).violations.map (fun v => v.position)).Nodup
    ∧ ((validate_lineup players).valid = true ↔ (validate_lineup players).violations = []) := by
  have hnodup : ((players.foldl scStep []).map Prod.fst).Nodup :=
    nodup_keys_scStep_foldl players [] (by simp)
  have hsc : (validate_lineup players).starter_counts = players.foldl scStep [] := rfl
  have hvio : (validate_lineup players).violations
      = (players.foldl scStep []).filterMap mkViolation := rfl
  have hval : (validate_lineup players).valid
      = ((players.foldl scStep []).filterMap mkViolation).isEmpty := rfl
  rw [hsc, hvio, hval]
  refine ⟨?_, ?_, ?_, ?_⟩
  · intro q
    have h := lookupD_scStep_foldl players q []
    simpa [lookupD] using h
  · intro v
    constructor
    · intro hv
      obtain ⟨kc, hkc, heq⟩ := List.mem_filterMap.mp hv
      obtain ⟨k, c⟩ := kc
      unfold mkViolation at heq
      simp only [] at heq
      split_ifs at heq with hgt
      rw [Option.some.injEq] at heq
      have hlook : lookupD (players.foldl scStep []) k = c := lookupD_eq_of_mem hkc hnodup
      subst heq
      exact ⟨by simpa [hlook] using hgt, by simp [hlook], rfl, rfl⟩
    · rintro ⟨hgt, hcur, hlim, hexc⟩
      obtain ⟨vp, vc, vl, ve⟩ := v
      simp only at hgt hcur hlim hexc
      have hne : lookupD (players.foldl scStep []) vp ≠ 0 := by omega
      refine List.mem_filterMap.mpr
        ⟨(vp, lookupD (players.foldl scStep []) vp), mem_of_lookupD_pos hne, ?_⟩
      unfold mkViolation
      simp only []
      rw [if_pos (by simpa using hgt)]
      rw [Option.some.injEq]
      subst hcur
      subst hlim
      subst hexc
      rfl
  · exact hnodup.sublist (violations_keys_sublist _)
  · exact List.isEmpty_iff

theorem fmt2_eval (q : ℚ) (k : ℤ) (h : (100 : ℚ) * q = (k : ℚ)) :
    fmt2 q = (if k < 0 then "-" else "")
      ++ toString (k.natAbs / 100) ++ "." ++ pad2 (k.natAbs % 100) := by
  unfold fmt2
  rw [h, pyRound_intCast]

theorem fmt2s_eval (q : ℚ) (k : ℤ) (h : (100 : ℚ) * q = (k : ℚ)) :
    fmt2s q = (if k < 0 then "-" else "+")
      ++ toString (k.natAbs / 100) ++ "." ++ pad2 (k.natAbs % 100) := by
  unfold fmt2s
  rw [h, pyRound_intCast]

theorem fmt2_zero : fmt2 0 = "0.00" := by
  rw [fmt2_eval 0 0 (by norm_num)]
  decide

theorem fmt2s_zero : fmt2s 0 = "+0.00" := by
  rw [fmt2s_eval 0 0 (by norm_num)]
  decide

theorem trade_decision_sign (d : ℚ) :
    (trade_decision d = "Accept" ↔ 0 < d)
    ∧ (trade_decision d = "Neutral" ↔ d = 0)
    ∧ (trade_decision d = "Reject" ↔ d < 0) := by
  unfold trade_decision
  exact rationale_sign d

/-- Counterexample for C8: on two empty rosters under PPR the final
summary string carries a trailing period, so it differs from the claimed
template (which ends right after the closing parenthesis). -/
theorem final_summary_claim_counterexample :
    final_summary_category [] [] "PPR"
      = ["Decision: Neutral — starter Δ +0.00 (before 0.00 → after 0.00)."]
    ∧ "Decision: Neutral — starter Δ +0.00 (before 0.00 → after 0.00)."
      ≠ "Decision: Neutral — starter Δ +0.00 (before 0.00 → after 0.00)" := by
  constructor
  · have hts : (team_strength_v3 ([] : List PlayerEntry) "PPR").1 = 0 := by
      norm_num [team_strength_v3]
    unfold final_summary_category
    simp only []
    rw [hts]
    rw [show (0 : ℚ) - 0 = ((0 : ℤ) : ℚ) by norm_num, round2_intCast, Int.cast_zero]
    rw [show trade_decision 0 = "Neutral" from
      ((trade_decision_sign 0).2.1).mpr rfl]
    unfold final_summary_line
    rw [fmt2s_zero, fmt2_zero]
    decide
  · decide

/-- C8 (amended): the final_summary category contains exactly one string,
`"Decision: {Accept|Neutral|Reject} — starter Δ {delta:+.2f} (before
{before:.2f} → after {after:.2f})."` **with a trailing period**, and the
decision follows the Trade Simulator's sign rule on the rounded starter
delta. -/
theorem final_summary_spec (before_players after_players : List PlayerEntry) (st : String) :
    final_summary_category before_players after_players st
      = ["Decision: "
          ++ trade_decision (round2 ((team_strength_v3 after_players st).1
              - (team_strength_v3 before_players st).1))
          ++ " — starter Δ "
          ++ fmt2s (round2 ((team_strength_v3 after_players st).1
              - (team_strength_v3 before_players st).1))
          ++ " (before " ++ fmt2 (team_strength_v3 before_players st).1
          ++ " → after " ++ fmt2 (team_strength_v3 after_players st).1 ++ ")."]
    ∧ (final_summary_category before_players after_players st).length = 1
    ∧ (trade_decision (round2 ((team_strength_v3 after_players st).1
          - (team_strength_v3 before_players st).1)) = "Accept"
        ↔ 0 < round2 ((team_strength_v3 after_players st).1
          - (team_strength_v3 before_players st).1))
    ∧ (trade_decision (round2 ((team_strength_v3 after_players st).1
          - (team_strength_v3 before_players st).1)) = "Neutral"
        ↔ round2 ((team_strength_v3 after_players st).1
          - (team_strength_v3 before_players st).1) = 0)
    ∧ (trade_decision (round2 ((team_strength_v3 after_players st).1
          - (team_strength_v3 before_players st).1)) = "Reject"
        ↔ round2 ((team_strength_v3 after_players st).1
          - (team_strength_v3 before_players st).1) < 0) := by
  refine ⟨rfl, rfl, ?_, ?_, ?_⟩
  · exact (trade_decision_sign _).1
  · exact (trade_decision_sign _).2.1
  · exact (trade_decision_sign _).2.2

theorem trade_drops_length (before_bd after_bd : List (String × ℚ × ℚ)) :
    (trade_drops before_bd after_bd).length
      = (after_bd.map Prod.fst).countP
          (fun pos => decide
            (round2 (bdStarterD after_bd pos - bdStarterD before_bd pos) < 0)) := by
  unfold trade_drops
  generalize (after_bd.map Prod.fst) = l
  induction l with
  | nil => rfl
  | cons x xs ih =>
    rw [List.filterMap_cons, List.countP_cons]
    simp only []
    by_cases h : round2 (bdStarterD after_bd x - bdStarterD before_bd x) < 0
    · rw [if_pos h]
      simp [h, ih]
    · rw [if_neg h]
      simp [h, ih]

theorem mem_trade_drops (before_bd after_bd : List (String × ℚ × ℚ)) (pd : String × ℚ) :
    pd ∈ trade_drops before_bd after_bd ↔
      (pd.1 ∈ after_bd.map Prod.fst
       ∧ pd.2 = round2 (bdStarterD after_bd pd.1 - bdStarterD before_bd pd.1)
       ∧ pd.2 < 0) := by
  unfold trade_drops
  rw [List.mem_filterMap]
  constructor
  · rintro ⟨pos, hpos, hf⟩
    simp only [] at hf
    by_cases h : round2 (bdStarterD after_bd pos - bdStarterD before_bd pos) < 0
    · rw [if_pos h, Option.some.injEq] at hf
      subst hf
      exact ⟨hpos, rfl, h⟩
    · rw [if_neg h] at hf
      cases hf
  · rintro ⟨h1, h2, h3⟩
    refine ⟨pd.1, h1, ?_⟩
    simp only []
    rw [if_pos (h2 ▸ h3), ← h2]

/-- Counterexample for C7: trading away the only QB (before `rosterA`,
after the empty roster) makes both the total starter delta and the QB
per-position starter delta negative; the claim then requires a recovery
suggestion for QB ahead of the generic counter-offer, but the code
iterates only over positions present in the after breakdown and emits the
generic counter-offer alone. -/
theorem unfavorable_recos_claim_counterexample :
    round2 ((team_strength_v3 ([] : List PlayerEntry) "Standard").1
        - (team_strength_v3 rosterA "Standard").1) < 0
    ∧ round2 (bdStarterD (position_breakdown_v3 ([] : List PlayerEntry) "Standard") "QB"
        - bdStarterD (position_breakdown_v3 rosterA "Standard") "QB") < 0
    ∧ unfavorable_trade_recos rosterA [] "Standard" = [counterOfferMsg] := by
  have hb := ts_rosterA_standard
  have h0 : (team_strength_v3 ([] : List PlayerEntry) "Standard").1 = 0 := by
    norm_num [team_strength_v3]
  have hbdl : position_breakdown_v3 rosterA "Standard" = [("QB", (10, 0.0))] := by
    have h1 : posNorm pQB10 = "QB" := by decide
    have h2 : isStarterD pQB10 = true := by decide
    simp [position_breakdown_v3, rosterA, bdAdd, h1, h2, score_pQB10_standard]
  have hbd : bdStarterD (position_breakdown_v3 rosterA "Standard") "QB" = 10 := by
    rw [hbdl]
    simp [bdStarterD, bdFind]
  have hbd0 : bdStarterD (position_breakdown_v3 ([] : List PlayerEntry) "Standard") "QB"
      = 0 := by
    norm_num [position_breakdown_v3, bdStarterD, bdFind]
  have hround : round2 ((0 : ℚ) - 10) = -10 := by
    rw [show ((0 : ℚ) - 10) = ((-10 : ℤ) : ℚ) by norm_num, round2_intCast]
    norm_num
  refine ⟨?_, ?_, ?_⟩
  · rw [h0, hb, hround]
    norm_num
  · rw [hbd0, hbd, hround]
    norm_num
  · unfold unfavorable_trade_recos
    simp only []
    rw [h0, hb, hround]
    rw [if_pos (by norm_num : (-10 : ℚ) < 0)]
    rfl

/-- C7 (amended): the unfavorable-trade-recommendation list is non-empty
exactly when the rounded total starter delta is negative; in that case it
is a list of recovery suggestions followed by exactly one generic
counter-offer, where the recovered positions are up to the 3 most negative
per-position starter deltas **among the positions present in the
after-roster breakdown** (ascending by delta; a position lost entirely in
the trade has no after-breakdown entry and is not recovered). -/
theorem unfavorable_recos_spec (before_players after_players : List PlayerEntry)
    (st : String) :
    (unfavorable_trade_recos before_players after_players st ≠ []
      ↔ round2 ((team_strength_v3 after_players st).1
          - (team_strength_v3 before_players st).1) < 0)
    ∧ (round2 ((team_strength_v3 after_players st).1
          - (team_strength_v3 before_players st).1) < 0 →
      ∃ ps : List (String × ℚ),
        unfavorable_trade_recos before_players after_players st
          = ps.map (fun pd => recoverMsg pd.1 pd.2) ++ [counterOfferMsg]
        ∧ ps.length = min 3
            (((position_breakdown_v3 after_players st).map Prod.fst).countP
              (fun pos => decide
                (round2 (bdStarterD (position_breakdown_v3 after_players st) pos
                  - bdStarterD (position_breakdown_v3 before_players st) pos) < 0)))
        ∧ List.Sorted dropLE ps
        ∧ (∀ pd ∈ ps, pd.1 ∈ (position_breakdown_v3 after_players st).map Prod.fst
            ∧ pd.2 = round2 (bdStarterD (position_breakdown_v3 after_players st) pd.1
                - bdStarterD (position_breakdown_v3 before_players st) pd.1)
            ∧ pd.2 < 0)
        ∧ (∀ pos ∈ (position_breakdown_v3 after_players st).map Prod.fst,
            round2 (bdStarterD (position_breakdown_v3 after_players st) pos
              - bdStarterD (position_breakdown_v3 before_players st) pos) < 0 →
            (pos, round2 (bdStarterD (position_breakdown_v3 after_players st) pos
              - bdStarterD (position_breakdown_v3 before_players st) pos)) ∉ ps →
            ∀ pd ∈ ps,
              pd.2 ≤ round2 (bdStarterD (position_breakdown_v3 after_players st) pos
                - bdStarterD (position_breakdown_v3 before_players st) pos))) := by
  constructor
  · unfold unfavorable_trade_recos
    simp only []
    by_cases h : round2 ((team_strength_v3 after_players st).1
        - (team_strength_v3 before_players st).1) < 0
    · rw [if_pos h]
      simp [h]
    · rw [if_neg h]
      simp [h]
  · intro h
    refine ⟨((trade_drops (position_breakdown_v3 before_players st)
        (position_breakdown_v3 after_players st)).insertionSort dropLE).take 3,
      ?_, ?_, ?_, ?_, ?_⟩
    · unfold unfavorable_trade_recos
      simp only []
      rw [if_pos h]
    · rw [List.length_take,
        (List.perm_insertionSort dropLE _).length_eq, trade_drops_length]
    · exact (List.sorted_insertionSort dropLE _).sublist (List.take_sublist 3 _)
    · intro pd hpd
      have h1 : pd ∈ (trade_drops (position_breakdown_v3 before_players st)
          (position_breakdown_v3 after_players st)).insertionSort dropLE :=
        (List.take_sublist 3 _).mem hpd
      have h2 := (List.perm_insertionSort dropLE _).mem_iff.mp h1
      exact (mem_trade_drops _ _ pd).mp h2
    · intro pos hpos hneg hnotin pd hpd
      have hmem : (pos, round2 (bdStarterD (position_breakdown_v3 after_players st) pos
          - bdStarterD (position_breakdown_v3 before_players st) pos))
          ∈ trade_drops (position_breakdown_v3 before_players st)
              (position_breakdown_v3 after_players st) :=
        (mem_trade_drops _ _ _).mpr ⟨hpos, rfl, hneg⟩
      have hsmem := (List.perm_insertionSort dropLE _).mem_iff.mpr hmem
      set sorted := (trade_drops (position_breakdown_v3 before_players st)
          (position_breakdown_v3 after_players st)).insertionSort dropLE with hsorted
      have hpw : List.Pairwise dropLE sorted := List.sorted_insertionSort dropLE _
      rw [← List.take_append_drop 3 sorted] at hsmem hpw
      rcases List.mem_append.mp hsmem with hin | hin
      · exact absurd hin hnotin
      · exact (List.pairwise_append.mp hpw).2.2 pd hpd _ hin

/-- Witness for C7 (amended): replacing the projection-10 QB by the
projection-5 QB under the Standard preset gives a negative starter delta,
so the recommendation list is non-empty and ends with the generic
counter-offer. -/
theorem unfavorable_recos_witness :
    unfavorable_trade_recos rosterA [pQB5] "Standard" ≠ []
    ∧ ∃ ps : List (String × ℚ),
        unfavorable_trade_recos rosterA [pQB5] "Standard"
          = ps.map (fun pd => recoverMsg pd.1 pd.2) ++ [counterOfferMsg] := by
  have hneg : round2 ((team_strength_v3 [pQB5] "Standard").1
      - (team_strength_v3 rosterA "Standard").1) < 0 := by
    rw [ts_pQB5_standard, ts_rosterA_standard, round2_5_sub_10]
    norm_num
  have h := unfavorable_recos_spec rosterA [pQB5] "Standard"
  obtain ⟨ps, hps, -⟩ := h.2 hneg
  exact ⟨h.1.mpr hneg, ps, hps⟩
